import Mathlib

/-!
Verification development for the ffmpipe repository.

The repository wraps a Windows child process (FFmpeg) behind named pipes:
`CreatePipePair` builds one synchronous read end and one overlapped write
end of a named pipe, `Pipe::Write` streams bytes to the child stdin with an
asynchronous write loop, `Pipe::Close` signals end of input and reaps the
child, `Pipe::ReadOutput` drains buffered child output to a print callback,
and `Pipe::~Pipe` releases the remaining handles.

The embedding below translates each of these routines into executable Lean
functions.  OS behaviour (results of WriteFile, WaitForMultipleObjects,
GetOverlappedResult, PeekNamedPipe, ReadFile, WaitForSingleObject) is
supplied by explicit oracle values consumed by the step functions, so the
control flow of the source is reproduced exactly while the environment
stays free.  Machine integers are Nat with explicit reduction modulo 2^32
where the source uses DWORD arithmetic.  Strings built by the source are
modelled as lists of character codes.
-/

namespace Ffmpipe

/-- Modulus of the 32-bit DWORD type used throughout the source. -/
def u32 : Nat := 4294967296

/-! ## Channel path construction (CreatePipePair naming)

The source builds the pipe path with
`ss << R"(\\.\pipe\ffmpipe_)" << GetCurrentProcessId() << '_' << out_read_pipe << '_' << name;`
The process id is printed in decimal; the pointer argument (the address of
the session's read-handle field, one address per pair) is printed by the
iostream `void*` inserter, which on the targeted MSVC platform produces a
fixed-width run of 16 uppercase hexadecimal digits.  Strings are modelled
as lists of character codes. -/

/-- Decimal rendering of a Nat, most significant digit first, as character
codes (code 48 is the digit zero), matching iostream output of a DWORD. -/
def decRepr (n : Nat) : List Nat :=
  if n = 0 then [48] else ((Nat.digits 10 n).map (fun d => 48 + d)).reverse

/-- Character code of one hexadecimal digit, uppercase (48..57 then 65..70). -/
def hexDigit (d : Nat) : Nat := if d < 10 then 48 + d else 55 + d

/-- Fixed-width (16 digit) uppercase hexadecimal rendering of a pointer
value, most significant digit first, as character codes; this is the MSVC
iostream rendering of a 64-bit pointer. -/
def ptrRepr (a : Nat) : List Nat :=
  (List.range 16).reverse.map (fun i => hexDigit (a / 16 ^ i % 16))

/-- Character codes of the literal path head written by the source, the raw
string for backslash backslash dot backslash pipe backslash ffmpipe underscore. -/
def nameHead : List Nat :=
  [92, 92, 46, 92, 112, 105, 112, 101, 92, 102, 102, 109, 112, 105, 112, 101, 95]

/-- Full channel path assembled by CreatePipePair: the literal head, the
decimal process id, an underscore (code 95), the pointer rendering of the
read-handle field address, an underscore, and the caller-supplied name. -/
def fullName (pid addr : Nat) (name : List Nat) : List Nat :=
  nameHead ++ decRepr pid ++ 95 :: (ptrRepr addr ++ 95 :: name)

/-- Left inverse of decRepr used to prove it injective: decimal value of a
digit-code list, most significant first. -/
def decVal (cs : List Nat) : Nat := cs.foldl (fun acc c => acc * 10 + (c - 48)) 0

/-- Left inverse of one hexadecimal digit code. -/
def unhexDigit (c : Nat) : Nat := if c < 58 then c - 48 else c - 55

/-- Left inverse of ptrRepr used to prove it injective. -/
def ptrVal (cs : List Nat) : Nat := cs.foldl (fun acc c => acc * 16 + unhexDigit c) 0

/-! ## CreatePipePair resource logic

CreateNamedPipeA may fail (INVALID_HANDLE_VALUE, modelled none); then the
function returns false without touching the out parameters.  Otherwise
CreateFileA may fail; then the already created read pipe is closed with
CloseHandle before returning false.  The out parameters are assigned only
when both ends exist. -/

/-- Oracle for one CreatePipePair call: the two handle-creation results.
none models INVALID_HANDLE_VALUE. -/
structure PairEnv where
  readPipe : Option Nat
  writePipe : Option Nat
  deriving DecidableEq, Repr

/-- Result of CreatePipePair: the out-parameter assignment (read and write
handle, written only on total success), the handles passed to CloseHandle
before a failure return, and the boolean return value. -/
structure PairOut where
  assigned : Option (Nat × Nat)
  released : List Nat
  ok : Bool
  deriving DecidableEq, Repr

/-- Shallow embedding of CreatePipePair (resource logic). -/
def CreatePipePair (env : PairEnv) : PairOut :=
  match env.readPipe with
  | none => ⟨none, [], false⟩
  | some r =>
    match env.writePipe with
    | none => ⟨none, [r], false⟩
    | some w => ⟨some (r, w), [], true⟩

/-! ## Session resource state (Pipe fields)

Each handle field of the Pipe object is either a valid owned handle or the
sentinel of its kind (INVALID_HANDLE_VALUE for the four pipe handles, NULL
for the event and the process-information handles).  The claims about the
fields only concern owned versus sentinel, so each field is a Bool, true
meaning owned.  printFn records whether a print callback is installed. -/

structure SessionRes where
  stdinR : Bool
  stdinW : Bool
  stdoutR : Bool
  stdoutW : Bool
  event : Bool
  hProcess : Bool
  hThread : Bool
  printFn : Bool
  deriving DecidableEq, Repr

/-- Names of the seven handle fields of the Pipe object. -/
inductive FieldId
  | stdinR | stdinW | stdoutR | stdoutW | event | hProcess | hThread
  deriving DecidableEq, Repr

/-- Whether the session currently owns the given handle field. -/
def ownsField (s : SessionRes) : FieldId → Bool
  | .stdinR => s.stdinR
  | .stdinW => s.stdinW
  | .stdoutR => s.stdoutR
  | .stdoutW => s.stdoutW
  | .event => s.event
  | .hProcess => s.hProcess
  | .hThread => s.hThread

/-- Handle fields released by the destructor, in source order: the NULL
checked handles (event, process, thread) first, then the
INVALID_HANDLE_VALUE checked handles (stdin read, stdin write, stdout
read, stdout write); each is closed only when not at its sentinel. -/
def destructorReleases (s : SessionRes) : List FieldId :=
  ((if s.event then [FieldId.event] else [])
    ++ (if s.hProcess then [FieldId.hProcess] else [])
    ++ (if s.hThread then [FieldId.hThread] else []))
  ++ ((if s.stdinR then [FieldId.stdinR] else [])
    ++ (if s.stdinW then [FieldId.stdinW] else [])
    ++ (if s.stdoutR then [FieldId.stdoutR] else [])
    ++ (if s.stdoutW then [FieldId.stdoutW] else []))

/-- Handle fields passed to CloseHandle by Pipe Close: only the stdin
write end, unconditionally. -/
def closeReleases (_s : SessionRes) : List FieldId := [FieldId.stdinW]

/-- Outcome of WaitForSingleObject on the child process handle during
Close: the child exited within the timeout, or the wait timed out, or the
wait itself failed. -/
inductive CloseWait
  | signaled | timedOut | failed
  deriving DecidableEq, Repr

/-- Observable steps taken by Pipe Close, in order: CloseHandle on the
stdin write end, WaitForSingleObject on the child with the given timeout,
TerminateProcess, and the final ReadOutput drain pass. -/
inductive CloseAct
  | closeStdinW
  | waitChild (tmo : Nat)
  | terminateChild
  | drainPass
  deriving DecidableEq, Repr

/-- Shallow embedding of Pipe Close: closes the stdin write handle and
stores the INVALID_HANDLE_VALUE sentinel, waits up to tmo for the child,
terminates the child when the wait did not report exit and term is set,
then runs one ReadOutput pass (whose byte count is discarded).  The
function is total: no outcome of the wait is an error. -/
def Close (tmo : Nat) (term : Bool) (w : CloseWait) (s : SessionRes) :
    SessionRes × List CloseAct :=
  ({ s with stdinW := false },
    CloseAct.closeStdinW :: CloseAct.waitChild tmo ::
      ((if w ≠ CloseWait.signaled ∧ term = true then [CloseAct.terminateChild] else [])
        ++ [CloseAct.drainPass]))

/-- Shallow embedding of Pipe SetPrintFunc: installs (true) or removes
(false) the print callback. -/
def SetPrintFunc (fn : Bool) (s : SessionRes) : SessionRes := { s with printFn := fn }

/-! ## ReadOutput (the output drain pass)

PeekNamedPipe measures the bytes currently available without consuming
them; on peek failure the function returns 0.  The loop then reads the
measured amount in chunks of at most 256 bytes (the scratch buffer size),
each ReadFile reporting the bytes actually read; a failing ReadFile makes
the pass return the count consumed so far.  Each chunk is forwarded to the
print callback when one is installed. -/

/-- Oracle result of one ReadFile call: failure, or the chunk of bytes
actually read (ReadFile stores the actual count back into its length
argument). -/
inductive ReadRes
  | fail
  | chunk (bytes : List Nat)
  deriving DecidableEq, Repr

/-- Oracle for one ReadOutput pass: the PeekNamedPipe result (none models
failure) and the successive ReadFile results. -/
structure DrainEnv where
  peek : Option Nat
  reads : List ReadRes
  deriving DecidableEq, Repr

/-- Result of one ReadOutput pass: the returned byte count, the chunks
forwarded to the print callback, the byte counts requested from ReadFile,
the bytes consumed from the pipe, and whether a ReadFile failed. -/
structure DrainOut where
  total : Nat
  fwd : List (List Nat)
  reqs : List Nat
  consumed : List Nat
  failed : Bool
  deriving DecidableEq, Repr

/-- The read loop of ReadOutput.  sink records whether a print callback is
installed; avail is the measured byte count; the remaining arguments are
the ReadFile oracle and the accumulators.  none models a run that needs
more oracle entries than supplied (the loop would still be running). -/
def readLoop (sink : Bool) (avail : Nat) :
    List ReadRes → Nat → List (List Nat) → List Nat → List Nat → Option DrainOut
  | rs, total, fwd, reqs, cons =>
    if total < avail then
      match rs with
      | [] => none
      | .fail :: _ =>
        some ⟨total, fwd, reqs ++ [min (avail - total) 256], cons, true⟩
      | .chunk bs :: rest =>
        readLoop sink avail rest (total + bs.length)
          (if sink then fwd ++ [bs] else fwd)
          (reqs ++ [min (avail - total) 256]) (cons ++ bs)
    else some ⟨total, fwd, reqs, cons, false⟩

/-- Shallow embedding of Pipe ReadOutput. -/
def ReadOutput (sink : Bool) (env : DrainEnv) : Option DrainOut :=
  match env.peek with
  | none => some ⟨0, [], [], [], false⟩
  | some avail => readLoop sink avail env.reads 0 [] [] []

/-- Well-formedness of a ReadFile oracle against a measured available
count: each successful chunk is no longer than the count requested at that
point (an OS guarantee of ReadFile). -/
def readsOk (avail : Nat) : Nat → List ReadRes → Bool
  | _, [] => true
  | _, .fail :: _ => true
  | total, .chunk bs :: rest =>
    decide (bs.length ≤ min (avail - total) 256) && readsOk avail (total + bs.length) rest

/-! ## Write (the asynchronous stdin write loop)

Each loop iteration issues WriteFile for the unsent suffix, computing the
requested byte count in DWORD arithmetic as the 32-bit truncation of
length minus the 32-bit running total.  A WriteFile failure other than
ERROR_IO_PENDING fails the call.  The caller then waits on the completion
event and the child process handle, bounded by the session timeout; any
wait outcome other than the event being signaled fails the call, as does a
failing GetOverlappedResult.  On success the reported transfer count is
added to the running total and one ReadOutput pass runs before the next
iteration. -/

/-- Byte count passed to WriteFile: DWORD subtraction of the running total
from the truncated length (the source casts length to DWORD; tw is already
a DWORD value below u32). -/
def reqU32 (len tw : Nat) : Nat := (len % u32 + u32 - tw) % u32

/-- Outcome of WaitForMultipleObjects on the completion event and the
child process handle: the event was signaled (index 0, the only success),
the child process handle was signaled, the wait timed out, or the wait
failed. -/
inductive WaitRes
  | signaled | processExit | timedOut | failed
  deriving DecidableEq, Repr

/-- Oracle for one Write iteration: whether WriteFile returned true,
whether a false return had last error ERROR_IO_PENDING, the wait outcome,
whether GetOverlappedResult succeeded, the transfer count it reported, the
bytes an abandoned or failed request still delivered to the pipe (the
source never learns this number), and the drain oracle for the ReadOutput
pass of this iteration. -/
structure WriteEvent where
  syncOk : Bool
  pendingErr : Bool
  wait : WaitRes
  resultOk : Bool
  written : Nat
  late : Nat
  drain : DrainEnv
  deriving DecidableEq, Repr

/-- Observable actions of the Write loop, in order of occurrence. -/
inductive WriteAct
  | issueWrite (off req : Nat)
  | waitWriteOrExit (tmo : Nat)
  | getResult
  | drainPass
  deriving DecidableEq, Repr

/-- State threaded through the Write loop: the DWORD running total, the
bytes delivered so far to the child stdin stream, the chunks forwarded to
the print callback by the drain passes, and the action trace. -/
structure WState where
  tw : Nat
  stream : List Nat
  sinkOut : List (List Nat)
  acts : List WriteAct
  deriving DecidableEq, Repr

/-- Bytes of the buffer delivered by one transfer of n bytes starting at
offset off (the source passes data plus total_written to WriteFile). -/
def chunkOf (data : Nat → Nat) (off n : Nat) : List Nat :=
  (List.range n).map fun i => data (off + i)

/-- Result of one Write iteration: the call returns false with the given
final state, or the loop continues with the given state, or the drain pass
inside the iteration needed more oracle entries (hang). -/
inductive IterRes
  | stops (st : WState)
  | next (st : WState)
  | hang (st : WState)
  deriving DecidableEq, Repr

/-- One iteration of the Write loop body, driven by one oracle event. -/
def writeIter (data : Nat → Nat) (len tmo : Nat) (sink : Bool)
    (e : WriteEvent) (st : WState) : IterRes :=
  let req := reqU32 len st.tw
  let st1 := { st with acts := st.acts ++ [WriteAct.issueWrite st.tw req] }
  if e.syncOk = false ∧ e.pendingErr = false then
    IterRes.stops st1
  else
    let st2 := { st1 with acts := st1.acts ++ [WriteAct.waitWriteOrExit tmo] }
    match e.wait with
    | WaitRes.signaled =>
      let st3 := { st2 with acts := st2.acts ++ [WriteAct.getResult] }
      if e.resultOk then
        let st4 := { st3 with
          stream := st3.stream ++ chunkOf data st.tw e.written,
          tw := (st.tw + e.written) % u32 }
        match ReadOutput sink e.drain with
        | none => IterRes.hang st4
        | some dout =>
          IterRes.next { st4 with
            sinkOut := st4.sinkOut ++ dout.fwd,
            acts := st4.acts ++ [WriteAct.drainPass] }
      else
        IterRes.stops { st3 with stream := st3.stream ++ chunkOf data st.tw e.late }
    | _ =>
      IterRes.stops { st2 with stream := st2.stream ++ chunkOf data st.tw e.late }

/-- The Write loop: while the running total is below length, consume one
oracle event and run the body.  none models a run that needs more oracle
entries than supplied. -/
def writeLoop (data : Nat → Nat) (len tmo : Nat) (sink : Bool) :
    List WriteEvent → WState → Option (Bool × WState)
  | evs, st =>
    if st.tw < len then
      match evs with
      | [] => none
      | e :: rest =>
        match writeIter data len tmo sink e st with
        | IterRes.stops st' => some (false, st')
        | IterRes.next st' => writeLoop data len tmo sink rest st'
        | IterRes.hang _ => none
    else some (true, st)

/-- Initial Write state. -/
def initW : WState := ⟨0, [], [], []⟩

/-- Shallow embedding of Pipe Write. -/
def Write (data : Nat → Nat) (len tmo : Nat) (sink : Bool)
    (evs : List WriteEvent) : Option (Bool × WState) :=
  writeLoop data len tmo sink evs initW

/-- Well-formedness of a Write oracle against a length and a starting
running total: the transfer counts reported or delivered never exceed the
requested count of their iteration (an OS guarantee of WriteFile and
GetOverlappedResult). -/
def eventsOk (len : Nat) : Nat → List WriteEvent → Bool
  | _, [] => true
  | tw, e :: rest =>
    decide (e.written ≤ reqU32 len tw) && decide (e.late ≤ reqU32 len tw)
      && eventsOk len ((tw + e.written) % u32) rest

/-- Equality of two Write oracle events on every field the Write loop
branches on or transfers with; only the drain oracle may differ. -/
def coreEq (a b : WriteEvent) : Prop :=
  a.syncOk = b.syncOk ∧ a.pendingErr = b.pendingErr ∧ a.wait = b.wait
    ∧ a.resultOk = b.resultOk ∧ a.written = b.written ∧ a.late = b.late

/-- A session state owning every handle, as produced by a fully successful
Pipe Create. -/
def fullSession : SessionRes :=
  ⟨true, true, true, true, true, true, true, true⟩

/-- Action trace of an iteration result. -/
def actsOf : IterRes → List WriteAct
  | .stops st => st.acts
  | .next st => st.acts
  | .hang st => st.acts

/-- Continued state of an iteration result, when the iteration did not
make the call fail. -/
def contOf : IterRes → Option WState
  | .stops _ => none
  | .next a => some a
  | .hang a => some a

/-- Projection of a drain result to its sink-independent components. -/
def drainCore (out : DrainOut) : Nat × List Nat × List Nat × Bool :=
  (out.total, out.reqs, out.consumed, out.failed)

/-- Loop invariant of Write: the delivered stream never exceeds length
bytes, the DWORD running total is the stream length reduced modulo u32,
and while the stream is below u32 bytes it is exactly the prefix of the
buffer of its own length. -/
def WInv (data : Nat → Nat) (len : Nat) (st : WState) : Prop :=
  st.stream.length ≤ len ∧ st.tw = st.stream.length % u32
    ∧ (st.stream.length < u32 → st.stream = chunkOf data 0 st.stream.length)

end Ffmpipe

namespace Ffmpipe

/-! ## Helper lemmas -/

theorem no95_decRepr (n : Nat) : 95 ∉ decRepr n := by
  unfold decRepr
  split
  · decide
  · intro h
    simp only [List.mem_reverse, List.mem_map] at h
    obtain ⟨d, hd, hc⟩ := h
    have := Nat.digits_lt_base (by norm_num) hd
    omega

theorem no95_ptrRepr (a : Nat) : 95 ∉ ptrRepr a := by
  unfold ptrRepr
  intro h
  simp only [List.mem_map] at h
  obtain ⟨i, hi, hc⟩ := h
  have hlt : a / 16 ^ i % 16 < 16 := Nat.mod_lt _ (by norm_num)
  unfold hexDigit at hc
  split at hc <;> omega

theorem sep_split : ∀ (xs1 : List Nat) {xs2 ys1 ys2 : List Nat},
    95 ∉ xs1 → 95 ∉ xs2 →
    xs1 ++ 95 :: ys1 = xs2 ++ 95 :: ys2 → xs1 = xs2 ∧ ys1 = ys2 := by
  intro xs1
  induction xs1 with
  | nil =>
    intro xs2 ys1 ys2 h1 h2 h
    cases xs2 with
    | nil =>
      simp only [List.nil_append, List.cons.injEq] at h
      exact ⟨rfl, h.2⟩
    | cons y u =>
      simp only [List.nil_append, List.cons_append, List.cons.injEq] at h
      exact absurd (h.1 ▸ List.mem_cons_self y u) h2
  | cons x t ih =>
    intro xs2 ys1 ys2 h1 h2 h
    cases xs2 with
    | nil =>
      simp only [List.cons_append, List.nil_append, List.cons.injEq] at h
      exact absurd (h.1 ▸ List.mem_cons_self x t) h1
    | cons y u =>
      simp only [List.cons_append, List.cons.injEq] at h
      have hm1 : 95 ∉ t := fun hh => h1 (List.mem_cons_of_mem x hh)
      have hm2 : 95 ∉ u := fun hh => h2 (List.mem_cons_of_mem y hh)
      obtain ⟨he, hy⟩ := ih hm1 hm2 h.2
      exact ⟨by rw [h.1, he], hy⟩

theorem foldl_reverse_ofDigits : ∀ l : List Nat,
    l.reverse.foldl (fun acc d => acc * 10 + d) 0 = Nat.ofDigits 10 l := by
  intro l
  induction l with
  | nil => rfl
  | cons d t ih =>
    rw [List.reverse_cons, List.foldl_append]
    simp only [List.foldl_cons, List.foldl_nil]
    rw [ih, Nat.ofDigits_cons]
    omega

theorem decVal_decRepr (n : Nat) : decVal (decRepr n) = n := by
  unfold decVal decRepr
  split
  · simp_all
  · rw [← List.map_reverse, List.foldl_map]
    have hfun : (fun (acc d : Nat) => acc * 10 + (48 + d - 48))
        = (fun acc d => acc * 10 + d) := by
      funext a d
      omega
    rw [hfun, foldl_reverse_ofDigits, Nat.ofDigits_digits]

theorem unhex_hexDigit (d : Nat) (hd : d < 16) : unhexDigit (hexDigit d) = d := by
  unfold unhexDigit hexDigit
  split <;> split <;> omega

theorem hexFold (a : Nat) : ∀ (k : Nat) (acc : Nat),
    (((List.range k).reverse).map (fun i => hexDigit (a / 16 ^ i % 16))).foldl
        (fun acc c => acc * 16 + unhexDigit c) acc
      = acc * 16 ^ k + a % 16 ^ k := by
  intro k
  induction k with
  | zero => simp [Nat.mod_one]
  | succ k ih =>
    intro acc
    rw [List.range_succ, List.reverse_append]
    simp only [List.reverse_cons, List.reverse_nil, List.nil_append, List.cons_append,
      List.map_cons, List.foldl_cons]
    rw [unhex_hexDigit _ (Nat.mod_lt _ (by norm_num)), ih]
    have hms : a % 16 ^ (k + 1) = a % 16 ^ k + 16 ^ k * (a / 16 ^ k % 16) := by
      rw [pow_succ, Nat.mod_mul]
    rw [hms, pow_succ]
    ring

theorem ptrVal_ptrRepr (a : Nat) (ha : a < 16 ^ 16) : ptrVal (ptrRepr a) = a := by
  unfold ptrVal ptrRepr
  rw [hexFold a 16 0, Nat.mod_eq_of_lt ha]
  omega

theorem req_le_rem (len S : Nat) (h : S ≤ len) : reqU32 len (S % u32) ≤ len - S := by
  unfold reqU32 u32
  omega

theorem req_eq_rem (len tw : Nat) (hlen : len < u32) (htw : tw ≤ len) :
    reqU32 len tw = len - tw := by
  unfold reqU32 u32 at *
  omega

theorem chunkOf_append (data : Nat → Nat) (a b : Nat) :
    chunkOf data 0 (a + b) = chunkOf data 0 a ++ chunkOf data a b := by
  unfold chunkOf
  rw [List.range_add, List.map_append, List.map_map]
  simp [Function.comp]

theorem close_fst (tmo : Nat) (term : Bool) (w : CloseWait) (s : SessionRes) :
    (Close tmo term w s).1 = { s with stdinW := false } := rfl

theorem req_first_act (data : Nat → Nat) (len tmo : Nat) (sink : Bool)
    (e : WriteEvent) (st : WState) :
    ∃ tail, actsOf (writeIter data len tmo sink e st)
      = st.acts ++ WriteAct.issueWrite st.tw (reqU32 len st.tw) :: tail := by
  unfold writeIter
  dsimp only
  split
  · exact ⟨[], by simp [actsOf]⟩
  · cases e.wait <;> dsimp only
    case signaled =>
      split
      · cases hd : ReadOutput sink e.drain <;> dsimp only
        · exact ⟨[WriteAct.waitWriteOrExit tmo, WriteAct.getResult], by simp [actsOf]⟩
        · exact ⟨[WriteAct.waitWriteOrExit tmo, WriteAct.getResult, WriteAct.drainPass],
            by simp [actsOf]⟩
      · exact ⟨[WriteAct.waitWriteOrExit tmo, WriteAct.getResult], by simp [actsOf]⟩
    all_goals exact ⟨[WriteAct.waitWriteOrExit tmo], by simp [actsOf]⟩

theorem writeLoop_inv (data : Nat → Nat) (len tmo : Nat) (sink : Bool) :
    ∀ (evs : List WriteEvent) (st : WState),
      eventsOk len st.tw evs = true → WInv data len st →
      ∀ ok st', writeLoop data len tmo sink evs st = some (ok, st') →
      (ok = true → st'.stream = chunkOf data 0 len) ∧ st'.stream.length ≤ len := by
  intro evs
  induction evs with
  | nil =>
    intro st hok hinv ok st' hrun
    unfold writeLoop at hrun
    split at hrun
    · exact absurd hrun (by simp)
    · rename_i hge
      obtain ⟨h1, h2, h3⟩ := hinv
      simp only [Option.some.injEq, Prod.mk.injEq] at hrun
      obtain ⟨hoke, hste⟩ := hrun
      have hexact : st.stream.length = len ∧ st.stream.length < u32 := by
        unfold u32 at *
        omega
      subst hste
      refine ⟨fun _ => ?_, h1⟩
      rw [← hexact.1]
      exact h3 hexact.2
  | cons e rest ih =>
    intro st hok hinv ok st' hrun
    simp only [eventsOk, Bool.and_eq_true, decide_eq_true_eq] at hok
    obtain ⟨⟨hw, hl⟩, hrest⟩ := hok
    obtain ⟨h1, h2, h3⟩ := hinv
    unfold writeLoop at hrun
    split at hrun
    swap
    · rename_i hge
      simp only [Option.some.injEq, Prod.mk.injEq] at hrun
      obtain ⟨hoke, hste⟩ := hrun
      have hexact : st.stream.length = len ∧ st.stream.length < u32 := by
        unfold u32 at *
        omega
      subst hste
      refine ⟨fun _ => ?_, h1⟩
      rw [← hexact.1]
      exact h3 hexact.2
    · rename_i hlt
      dsimp only at hrun
      have hreq : reqU32 len st.tw ≤ len - st.stream.length := by
        rw [h2]
        exact req_le_rem len st.stream.length h1
      unfold writeIter at hrun
      dsimp only at hrun
      split at hrun
      case h_1 a heq =>
        simp only [Option.some.injEq, Prod.mk.injEq] at hrun
        obtain ⟨hoke, hste⟩ := hrun
        subst hste
        refine ⟨fun h => by simp [← hoke] at h, ?_⟩
        split at heq
        · injection heq with ha
          rw [← ha]
          exact h1
        · split at heq
          · split at heq
            · split at heq
              · cases heq
              · cases heq
            · injection heq with ha
              rw [← ha]
              simp only [List.length_append, chunkOf, List.length_map, List.length_range]
              omega
          · injection heq with ha
            rw [← ha]
            simp only [List.length_append, chunkOf, List.length_map, List.length_range]
            omega
      case h_2 a heq =>
        split at heq
        · cases heq
        · split at heq
          · split at heq
            · split at heq
              · cases heq
              · injection heq with ha
                rw [← ha] at hrun
                refine ih _ ?_ ?_ ok st' hrun
                · simpa [h2, Nat.mod_add_mod] using hrest
                · refine ⟨?_, ?_, ?_⟩
                  · simp only [List.length_append, chunkOf, List.length_map,
                      List.length_range]
                    omega
                  · simp only [List.length_append, chunkOf, List.length_map,
                      List.length_range]
                    rw [h2, Nat.mod_add_mod]
                  · intro hlt'
                    have hclen : (chunkOf data st.tw e.written).length = e.written := by
                      simp [chunkOf]
                    rw [List.length_append, hclen] at hlt' ⊢
                    have hold : st.stream.length < u32 := by omega
                    have htw : st.tw = st.stream.length := by
                      rw [h2, Nat.mod_eq_of_lt hold]
                    rw [chunkOf_append data st.stream.length e.written, ← h3 hold, ← htw]
            · cases heq
          · cases heq
      case h_3 a heq =>
        exact absurd hrun (by simp)

theorem readLoop_reqs (sink : Bool) (avail : Nat) :
    ∀ (rs : List ReadRes) (total : Nat) (fwd : List (List Nat)) (reqs cons : List Nat)
      (out : DrainOut),
      (∀ r ∈ reqs, r ≤ 256) →
      readLoop sink avail rs total fwd reqs cons = some out →
      ∀ r ∈ out.reqs, r ≤ 256 := by
  intro rs
  induction rs with
  | nil =>
    intro total fwd reqs cons out hb hrun
    unfold readLoop at hrun
    split at hrun
    · exact absurd hrun (by simp)
    · simp only [Option.some.injEq] at hrun
      subst hrun
      exact hb
  | cons r rest ih =>
    intro total fwd reqs cons out hb hrun
    unfold readLoop at hrun
    split at hrun
    · match r, hrun with
      | ReadRes.fail, hrun =>
        simp only [Option.some.injEq] at hrun
        subst hrun
        intro q hq
        simp only [List.mem_append, List.mem_singleton] at hq
        rcases hq with hq | hq
        · exact hb q hq
        · subst hq
          exact le_trans (min_le_right _ _) (by omega)
      | ReadRes.chunk bs, hrun =>
        refine ih _ _ _ _ out ?_ hrun
        intro q hq
        simp only [List.mem_append, List.mem_singleton] at hq
        rcases hq with hq | hq
        · exact hb q hq
        · subst hq
          exact le_trans (min_le_right _ _) (by omega)
    · simp only [Option.some.injEq] at hrun
      subst hrun
      exact hb

theorem readLoop_consumed (sink : Bool) (avail : Nat) :
    ∀ (rs : List ReadRes) (total : Nat) (fwd : List (List Nat)) (reqs cons : List Nat)
      (out : DrainOut),
      readLoop sink avail rs total fwd reqs cons = some out →
      ∃ extra, out.consumed = cons ++ extra ∧ out.total = total + extra.length := by
  intro rs
  induction rs with
  | nil =>
    intro total fwd reqs cons out hrun
    unfold readLoop at hrun
    split at hrun
    · exact absurd hrun (by simp)
    · simp only [Option.some.injEq] at hrun
      subst hrun
      exact ⟨[], by simp⟩
  | cons r rest ih =>
    intro total fwd reqs cons out hrun
    unfold readLoop at hrun
    split at hrun
    · match r, hrun with
      | ReadRes.fail, hrun =>
        simp only [Option.some.injEq] at hrun
        subst hrun
        exact ⟨[], by simp⟩
      | ReadRes.chunk bs, hrun =>
        obtain ⟨extra, hc, ht⟩ := ih _ _ _ _ out hrun
        exact ⟨bs ++ extra, by simp [hc], by simp [ht]; omega⟩
    · simp only [Option.some.injEq] at hrun
      subst hrun
      exact ⟨[], by simp⟩

theorem readLoop_fwd_flatten (avail : Nat) :
    ∀ (rs : List ReadRes) (total : Nat) (fwd : List (List Nat)) (reqs cons : List Nat)
      (out : DrainOut),
      fwd.flatten = cons →
      readLoop true avail rs total fwd reqs cons = some out →
      out.fwd.flatten = out.consumed := by
  intro rs
  induction rs with
  | nil =>
    intro total fwd reqs cons out hj hrun
    unfold readLoop at hrun
    split at hrun
    · exact absurd hrun (by simp)
    · simp only [Option.some.injEq] at hrun
      subst hrun
      exact hj
  | cons r rest ih =>
    intro total fwd reqs cons out hj hrun
    unfold readLoop at hrun
    split at hrun
    · match r, hrun with
      | ReadRes.fail, hrun =>
        simp only [Option.some.injEq] at hrun
        subst hrun
        exact hj
      | ReadRes.chunk bs, hrun =>
        refine ih _ _ _ _ out ?_ hrun
        simp [hj]
    · simp only [Option.some.injEq] at hrun
      subst hrun
      exact hj

theorem readLoop_no_sink_fwd (avail : Nat) :
    ∀ (rs : List ReadRes) (total : Nat) (fwd : List (List Nat)) (reqs cons : List Nat)
      (out : DrainOut),
      readLoop false avail rs total fwd reqs cons = some out →
      out.fwd = fwd := by
  intro rs
  induction rs with
  | nil =>
    intro total fwd reqs cons out hrun
    unfold readLoop at hrun
    split at hrun
    · exact absurd hrun (by simp)
    · simp only [Option.some.injEq] at hrun
      subst hrun
      rfl
  | cons r rest ih =>
    intro total fwd reqs cons out hrun
    unfold readLoop at hrun
    split at hrun
    · match r, hrun with
      | ReadRes.fail, hrun =>
        simp only [Option.some.injEq] at hrun
        subst hrun
        rfl
      | ReadRes.chunk bs, hrun =>
        simpa using ih _ _ _ _ out hrun
    · simp only [Option.some.injEq] at hrun
      subst hrun
      rfl

theorem readLoop_sink_core (sink1 sink2 : Bool) (avail : Nat) :
    ∀ (rs : List ReadRes) (total : Nat) (fwd1 fwd2 : List (List Nat)) (reqs cons : List Nat),
      (readLoop sink1 avail rs total fwd1 reqs cons).map drainCore
        = (readLoop sink2 avail rs total fwd2 reqs cons).map drainCore := by
  intro rs
  induction rs with
  | nil =>
    intro total fwd1 fwd2 reqs cons
    unfold readLoop
    split <;> rfl
  | cons r rest ih =>
    intro total fwd1 fwd2 reqs cons
    unfold readLoop
    split
    · match r with
      | ReadRes.fail => rfl
      | ReadRes.chunk bs => exact ih _ _ _ _ _
    · rfl

theorem readLoop_bounds (sink : Bool) (avail : Nat) :
    ∀ (rs : List ReadRes) (total : Nat) (fwd : List (List Nat)) (reqs cons : List Nat)
      (out : DrainOut),
      readsOk avail total rs = true → total ≤ avail →
      readLoop sink avail rs total fwd reqs cons = some out →
      out.total ≤ avail ∧ (out.failed = false → out.total = avail)
        ∧ (out.failed = true → out.total < avail) := by
  intro rs
  induction rs with
  | nil =>
    intro total fwd reqs cons out hwf hle hrun
    unfold readLoop at hrun
    split at hrun
    · exact absurd hrun (by simp)
    · simp only [Option.some.injEq] at hrun
      subst hrun
      rename_i hge
      exact ⟨hle, fun _ => by dsimp only; omega, fun h => by simp at h⟩
  | cons r rest ih =>
    intro total fwd reqs cons out hwf hle hrun
    unfold readLoop at hrun
    split at hrun
    · rename_i hltv
      match r, hwf, hrun with
      | ReadRes.fail, hwf, hrun =>
        simp only [Option.some.injEq] at hrun
        subst hrun
        refine ⟨by dsimp only; omega, fun h => by simp at h, fun _ => ?_⟩
        dsimp only
        omega
      | ReadRes.chunk bs, hwf, hrun =>
        simp only [readsOk, Bool.and_eq_true, decide_eq_true_eq] at hwf
        exact ih _ _ _ _ out hwf.2 (by omega) hrun
    · simp only [Option.some.injEq] at hrun
      subst hrun
      rename_i hge
      exact ⟨hle, fun _ => by dsimp only; omega, fun h => by simp at h⟩

theorem writeIter_core (data : Nat → Nat) (len tmo : Nat) (sink1 sink2 : Bool)
    (e1 e2 : WriteEvent) (st1 st2 : WState)
    (hc : coreEq e1 e2) (htw : st1.tw = st2.tw) (hs : st1.stream = st2.stream) :
    (∃ a1 a2, writeIter data len tmo sink1 e1 st1 = IterRes.stops a1
        ∧ writeIter data len tmo sink2 e2 st2 = IterRes.stops a2
        ∧ a1.stream = a2.stream)
    ∨ (∃ a1 a2, contOf (writeIter data len tmo sink1 e1 st1) = some a1
        ∧ contOf (writeIter data len tmo sink2 e2 st2) = some a2
        ∧ a1.tw = a2.tw ∧ a1.stream = a2.stream) := by
  obtain ⟨h1, h2, h3, h4, h5, h6⟩ := hc
  unfold writeIter
  rw [← h1, ← h2, ← h3, ← h4, ← h5, ← h6, ← htw, ← hs]
  dsimp only
  split
  · left
    exact ⟨_, _, rfl, rfl, rfl⟩
  · cases e1.wait <;> dsimp only
    case signaled =>
      split
      · right
        cases ReadOutput sink1 e1.drain <;> cases ReadOutput sink2 e2.drain <;>
          exact ⟨_, _, rfl, rfl, rfl, rfl⟩
      · left
        exact ⟨_, _, rfl, rfl, rfl⟩
    all_goals
      left
      exact ⟨_, _, rfl, rfl, rfl⟩

theorem writeLoop_core (data : Nat → Nat) (len tmo : Nat) (sink1 sink2 : Bool) :
    ∀ {evs1 evs2 : List WriteEvent}, List.Forall₂ coreEq evs1 evs2 →
    ∀ (st1 st2 : WState), st1.tw = st2.tw → st1.stream = st2.stream →
    ∀ ok1 st1' ok2 st2',
      writeLoop data len tmo sink1 evs1 st1 = some (ok1, st1') →
      writeLoop data len tmo sink2 evs2 st2 = some (ok2, st2') →
      ok1 = ok2 ∧ st1'.stream = st2'.stream := by
  intro evs1 evs2 hf
  induction hf with
  | nil =>
    intro st1 st2 htw hs ok1 st1' ok2 st2' hr1 hr2
    unfold writeLoop at hr1 hr2
    rw [← htw] at hr2
    split at hr1 <;> split at hr2 <;> try contradiction
    simp only [Option.some.injEq, Prod.mk.injEq] at hr1 hr2
    obtain ⟨ho1, hs1⟩ := hr1
    obtain ⟨ho2, hs2⟩ := hr2
    subst hs1
    subst hs2
    exact ⟨ho1 ▸ ho2 ▸ rfl, hs⟩
  | cons hc hrest ih =>
    rename_i e1 e2 rest1 rest2
    intro st1 st2 htw hs ok1 st1' ok2 st2' hr1 hr2
    unfold writeLoop at hr1 hr2
    rw [← htw] at hr2
    split at hr1 <;> split at hr2 <;> try contradiction
    all_goals try dsimp only at hr1 hr2
    case isFalse.isFalse =>
      simp only [Option.some.injEq, Prod.mk.injEq] at hr1 hr2
      obtain ⟨ho1, hs1⟩ := hr1
      obtain ⟨ho2, hs2⟩ := hr2
      subst hs1
      subst hs2
      exact ⟨ho1 ▸ ho2 ▸ rfl, hs⟩
    case isTrue.isTrue =>
      rcases writeIter_core data len tmo sink1 sink2 e1 e2 st1 st2 hc htw hs with
        ⟨a1, a2, hi1, hi2, has⟩ | ⟨a1, a2, hi1, hi2, hatw, has⟩
      · rw [hi1] at hr1
        rw [hi2] at hr2
        simp only [Option.some.injEq, Prod.mk.injEq] at hr1 hr2
        obtain ⟨ho1, hs1⟩ := hr1
        obtain ⟨ho2, hs2⟩ := hr2
        subst hs1
        subst hs2
        exact ⟨ho1 ▸ ho2 ▸ rfl, has⟩
      · rcases hcase1 : writeIter data len tmo sink1 e1 st1 with a | b1 | c1 <;>
          rw [hcase1] at hi1 hr1 <;>
          simp only [contOf] at hi1
        · exact absurd hi1 (by simp)
        · rcases hcase2 : writeIter data len tmo sink2 e2 st2 with a | b2 | c2 <;>
            rw [hcase2] at hi2 hr2 <;>
            simp only [contOf] at hi2
          · exact absurd hi2 (by simp)
          · simp only [Option.some.injEq] at hi1 hi2
            subst hi1
            subst hi2
            exact ih _ _ hatw has ok1 st1' ok2 st2' hr1 hr2
          · exact absurd hr2 (by simp)
        · exact absurd hr1 (by simp)

end Ffmpipe

namespace Ffmpipe

/-! ## Claim theorems -/

/-- C1: Write(buffer, length) returns success only if exactly length bytes
of the buffer have been delivered, in their original order, to the child
stdin stream across the iterations; otherwise it returns failure and the
number of bytes delivered before the failure is at most length.  The
hypothesis is the OS contract that no transfer exceeds its requested
count. -/
theorem Write_delivers_exactly (data : Nat → Nat) (len tmo : Nat) (sink : Bool)
    (evs : List WriteEvent) (ok : Bool) (st : WState)
    (hok : eventsOk len 0 evs = true)
    (hrun : Write data len tmo sink evs = some (ok, st)) :
    (ok = true → st.stream = chunkOf data 0 len) ∧ st.stream.length ≤ len :=
  writeLoop_inv data len tmo sink evs initW (by simpa [initW] using hok)
    ⟨by simp [initW], by simp [initW], fun _ => by simp [initW, chunkOf]⟩ ok st hrun

theorem Write_delivers_exactly_check :
    ((true : Bool) = true →
        (WState.mk 3 [10, 11, 12] []
            [WriteAct.issueWrite 0 3, WriteAct.waitWriteOrExit 77, WriteAct.getResult,
              WriteAct.drainPass]).stream = chunkOf (fun i => i + 10) 0 3)
      ∧ (WState.mk 3 [10, 11, 12] []
          [WriteAct.issueWrite 0 3, WriteAct.waitWriteOrExit 77, WriteAct.getResult,
            WriteAct.drainPass]).stream.length ≤ 3 :=
  Write_delivers_exactly (fun i => i + 10) 3 77 true
    [⟨true, false, WaitRes.signaled, true, 3, 0, ⟨some 0, []⟩⟩] true
    (WState.mk 3 [10, 11, 12] []
      [WriteAct.issueWrite 0 3, WriteAct.waitWriteOrExit 77, WriteAct.getResult,
        WriteAct.drainPass])
    (by decide) (by decide)

/-- C2: during Write, when an issued asynchronous write does not complete
synchronously (WriteFile returned false with ERROR_IO_PENDING), the caller
waits on write completion and child termination together, bounded by the
session timeout; if that wait times out, fails, or reports the child
process, or the completion result cannot be retrieved, Write returns
failure immediately, runs no drain pass in that iteration, and performs no
further iterations (the result does not depend on the remaining oracle). -/
theorem Write_async_wait_failure (data : Nat → Nat) (len tmo : Nat) (sink : Bool)
    (e : WriteEvent) (rest : List WriteEvent) (st : WState)
    (hlt : st.tw < len) (hsync : e.syncOk = false) (hpend : e.pendingErr = true)
    (hfail : e.wait ≠ WaitRes.signaled ∨ e.resultOk = false) :
    ∃ st',
      writeLoop data len tmo sink (e :: rest) st = some (false, st')
      ∧ writeLoop data len tmo sink [e] st = some (false, st')
      ∧ (∃ tail, st'.acts = st.acts
            ++ WriteAct.issueWrite st.tw (reqU32 len st.tw)
              :: WriteAct.waitWriteOrExit tmo :: tail)
      ∧ st'.acts.count WriteAct.drainPass = st.acts.count WriteAct.drainPass := by
  have hiter : ∃ st', writeIter data len tmo sink e st = IterRes.stops st'
      ∧ (∃ tail, st'.acts = st.acts
            ++ WriteAct.issueWrite st.tw (reqU32 len st.tw)
              :: WriteAct.waitWriteOrExit tmo :: tail)
      ∧ st'.acts.count WriteAct.drainPass = st.acts.count WriteAct.drainPass := by
    unfold writeIter
    dsimp only
    rw [if_neg (by simp [hsync, hpend])]
    rcases hfail with hw | hr
    · cases hwv : e.wait <;> dsimp only
      case signaled => exact absurd hwv hw
      all_goals
        exact ⟨_, rfl, ⟨[], by simp⟩, by simp⟩
    · cases hwv : e.wait <;> dsimp only
      case signaled =>
        rw [if_neg (by simp [hr])]
        exact ⟨_, rfl, ⟨[WriteAct.getResult], by simp⟩,
          by simp [List.count_append, List.count_cons]⟩
      all_goals
        exact ⟨_, rfl, ⟨[], by simp⟩, by simp⟩
  obtain ⟨st', hstep, htail, hcnt⟩ := hiter
  refine ⟨st', ?_, ?_, htail, hcnt⟩ <;>
    · unfold writeLoop
      rw [if_pos hlt]
      dsimp only
      rw [hstep]

theorem Write_async_wait_failure_check :
    ∃ st',
      writeLoop (fun _ => 0) 5 9 false
          (⟨false, true, WaitRes.timedOut, true, 0, 2, ⟨none, []⟩⟩
            :: [⟨true, false, WaitRes.signaled, true, 5, 0, ⟨none, []⟩⟩]) initW
        = some (false, st')
      ∧ writeLoop (fun _ => 0) 5 9 false
          [⟨false, true, WaitRes.timedOut, true, 0, 2, ⟨none, []⟩⟩] initW
        = some (false, st')
      ∧ (∃ tail, st'.acts = initW.acts
            ++ WriteAct.issueWrite initW.tw (reqU32 5 initW.tw)
              :: WriteAct.waitWriteOrExit 9 :: tail)
      ∧ st'.acts.count WriteAct.drainPass = initW.acts.count WriteAct.drainPass :=
  Write_async_wait_failure (fun _ => 0) 5 9 false
    ⟨false, true, WaitRes.timedOut, true, 0, 2, ⟨none, []⟩⟩
    [⟨true, false, WaitRes.signaled, true, 5, 0, ⟨none, []⟩⟩] initW
    (by decide) rfl rfl (Or.inl (by decide))

/-- C3: Close performs, in this order, the release of the stdin write end
(with its sentinel stored), the bounded wait for child exit, a forced
termination exactly when the wait did not report exit and the terminate
flag is set, and one final drain pass in every case; Close is total, so a
timeout is not an error and Close still completes with the final drain
last. -/
theorem Close_step_order (tmo : Nat) (term : Bool) (w : CloseWait) (s : SessionRes) :
    (Close tmo term w s).1 = { s with stdinW := false }
    ∧ (Close tmo term w s).2 =
        CloseAct.closeStdinW :: CloseAct.waitChild tmo ::
          ((if w ≠ CloseWait.signaled ∧ term = true then [CloseAct.terminateChild] else [])
            ++ [CloseAct.drainPass])
    ∧ ((CloseAct.terminateChild ∈ (Close tmo term w s).2) ↔ (w ≠ CloseWait.signaled ∧ term = true))
    ∧ ((Close tmo term w s).2.count CloseAct.drainPass = 1)
    ∧ ((Close tmo term w s).2.getLast? = some CloseAct.drainPass) := by
  refine ⟨rfl, rfl, ?_, ?_, ?_⟩ <;>
    rcases w <;> rcases term <;> simp [Close]

/-- C4 counterexample: on a fully owned session, Close does not release
every still-owned resource: the stdout read end stays owned and is not in
the release list of Close, refuting the claim that explicit close releases
every still-owned resource. -/
theorem Close_not_release_all :
    ownsField fullSession FieldId.stdoutR = true
    ∧ FieldId.stdoutR ∉ closeReleases fullSession
    ∧ ((Close 100 true CloseWait.signaled fullSession).1).stdoutR = true := by
  decide

/-- C4 amended: every resource field is either owned or at its sentinel;
Close releases exactly the stdin write end and stores its sentinel
immediately; aggregate destruction releases every still-owned resource
exactly once; and across a Close followed by destruction each originally
owned resource is released exactly once, so no resource is released
twice and a released field never returns to the valid state. -/
theorem release_once_discipline (tmo : Nat) (term : Bool) (w : CloseWait)
    (s : SessionRes) (hrun : s.stdinW = true) :
    ((Close tmo term w s).1).stdinW = false
    ∧ closeReleases s = [FieldId.stdinW]
    ∧ (∀ f, (destructorReleases s).count f = if ownsField s f then 1 else 0)
    ∧ (∀ f, (closeReleases s ++ destructorReleases (Close tmo term w s).1).count f
          = if ownsField s f then 1 else 0) := by
  rw [close_fst]
  refine ⟨rfl, rfl, fun f => ?_, fun f => ?_⟩ <;>
    · rcases s with ⟨a, b, c, d, e, g, h, i⟩
      subst hrun
      rcases f <;> rcases a <;> rcases c <;> rcases d <;> rcases e <;> rcases g <;> rcases h <;>
        rcases i <;> decide

theorem release_once_discipline_check :
    ((Close 5 true CloseWait.timedOut fullSession).1).stdinW = false
    ∧ (destructorReleases fullSession).count FieldId.stdoutR
        = (if ownsField fullSession FieldId.stdoutR then 1 else 0) :=
  ⟨(release_once_discipline 5 true CloseWait.timedOut fullSession rfl).1,
   (release_once_discipline 5 true CloseWait.timedOut fullSession rfl).2.2.1 FieldId.stdoutR⟩

/-- C5: a drain pass measures the available bytes first, reads them in
chunks requested at no more than 256 bytes, returns exactly the number of
bytes consumed, forwards the consumed chunks to the installed sink in
order, consumes exactly the measured amount when no read fails and less
when one does; and a drain failure is never escalated: the Write return
value and delivered stream do not depend on the drain oracles. -/
theorem ReadOutput_drain_contract :
    (∀ (sink : Bool) (env : DrainEnv) (out : DrainOut),
        ReadOutput sink env = some out →
          (∀ r ∈ out.reqs, r ≤ 256)
          ∧ out.total = out.consumed.length
          ∧ (sink = true → out.fwd.flatten = out.consumed)
          ∧ (∀ avail, env.peek = some avail → readsOk avail 0 env.reads = true →
              out.total ≤ avail
              ∧ (out.failed = false → out.total = avail)
              ∧ (out.failed = true → out.total < avail)))
    ∧ (∀ (data : Nat → Nat) (len tmo : Nat) (sink1 sink2 : Bool)
        (evs1 evs2 : List WriteEvent),
        List.Forall₂ coreEq evs1 evs2 →
        ∀ ok1 st1 ok2 st2,
          Write data len tmo sink1 evs1 = some (ok1, st1) →
          Write data len tmo sink2 evs2 = some (ok2, st2) →
          ok1 = ok2 ∧ st1.stream = st2.stream) := by
  constructor
  · intro sink env out hrun
    unfold ReadOutput at hrun
    split at hrun
    · rename_i hpk
      simp only [Option.some.injEq] at hrun
      subst hrun
      refine ⟨by simp, rfl, by simp, ?_⟩
      intro avail hav
      rw [hpk] at hav
      exact absurd hav (by simp)
    · rename_i avail hpk
      refine ⟨readLoop_reqs sink avail env.reads 0 [] [] [] out (by simp) hrun, ?_, ?_, ?_⟩
      · obtain ⟨extra, hc, ht⟩ := readLoop_consumed sink avail env.reads 0 [] [] [] out hrun
        rw [hc, ht]
        simp
      · intro hsink
        subst hsink
        exact readLoop_fwd_flatten avail env.reads 0 [] [] [] out rfl hrun
      · intro avail2 hav hwf
        rw [hpk] at hav
        simp only [Option.some.injEq] at hav
        subst hav
        exact readLoop_bounds sink avail env.reads 0 [] [] [] out hwf (Nat.zero_le _) hrun
  · intro data len tmo sink1 sink2 evs1 evs2 hf ok1 st1 ok2 st2 h1 h2
    exact writeLoop_core data len tmo sink1 sink2 hf initW initW rfl rfl ok1 st1 ok2 st2 h1 h2

theorem ReadOutput_drain_contract_check :
    (2 : Nat) ≤ 256
    ∧ (DrainOut.mk 2 [[7, 8]] [2] [7, 8] false).total
        = (DrainOut.mk 2 [[7, 8]] [2] [7, 8] false).consumed.length :=
  ⟨(ReadOutput_drain_contract.1 true ⟨some 2, [ReadRes.chunk [7, 8]]⟩
      (DrainOut.mk 2 [[7, 8]] [2] [7, 8] false) (by decide)).1 2 (by decide),
   (ReadOutput_drain_contract.1 true ⟨some 2, [ReadRes.chunk [7, 8]]⟩
      (DrainOut.mk 2 [[7, 8]] [2] [7, 8] false) (by decide)).2.1⟩

/-- C6: the channel paths built by CreatePipePair are injective in the
process identity, the memory identity of the pair (the read-handle field
address, below the 64-bit pointer bound), and the fixed name, so two
concurrently alive sessions, which differ in process id or in pair
address, never derive colliding paths. -/
theorem CreatePipePair_paths_distinct (p1 a1 : Nat) (n1 : List Nat)
    (p2 a2 : Nat) (n2 : List Nat)
    (ha1 : a1 < 16 ^ 16) (ha2 : a2 < 16 ^ 16)
    (h : fullName p1 a1 n1 = fullName p2 a2 n2) :
    p1 = p2 ∧ a1 = a2 ∧ n1 = n2 := by
  unfold fullName at h
  rw [List.append_assoc, List.append_assoc] at h
  have h1 := List.append_cancel_left h
  obtain ⟨hdec, hrest⟩ := sep_split _ (no95_decRepr p1) (no95_decRepr p2) h1
  obtain ⟨hptr, hname⟩ := sep_split _ (no95_ptrRepr a1) (no95_ptrRepr a2) hrest
  refine ⟨?_, ?_, hname⟩
  · have := congrArg decVal hdec
    rwa [decVal_decRepr, decVal_decRepr] at this
  · have := congrArg ptrVal hptr
    rwa [ptrVal_ptrRepr a1 ha1, ptrVal_ptrRepr a2 ha2] at this

theorem CreatePipePair_paths_distinct_check :
    (5 : Nat) = 5 ∧ (7 : Nat) = 7 ∧ ([115] : List Nat) = [115] :=
  CreatePipePair_paths_distinct 5 7 [115] 5 7 [115]
    (by norm_num) (by norm_num) rfl

/-- C7: when either end of the pipe pair fails to materialize, the already
created read end is released before the failure return and the out
parameters stay unassigned; the handles are handed back exactly when the
call reports success, so a partial assignment is never returned. -/
theorem CreatePipePair_all_or_nothing :
    (∀ env : PairEnv, (CreatePipePair env).assigned.isSome = (CreatePipePair env).ok)
    ∧ (∀ w, CreatePipePair ⟨none, w⟩ = ⟨none, [], false⟩)
    ∧ (∀ r, CreatePipePair ⟨some r, none⟩ = ⟨none, [r], false⟩)
    ∧ (∀ r w, CreatePipePair ⟨some r, some w⟩ = ⟨some (r, w), [], true⟩) := by
  refine ⟨fun env => ?_, fun w => rfl, fun r => rfl, fun r w => rfl⟩
  rcases env with ⟨_ | r, _ | w⟩ <;> rfl

/-- C8: Write with length zero succeeds immediately without consuming any
oracle event: no write is issued, no wait occurs, no drain pass runs, and
no byte reaches the stream, for every oracle. -/
theorem Write_zero_length_noop (data : Nat → Nat) (tmo : Nat) (sink : Bool)
    (evs : List WriteEvent) :
    Write data 0 tmo sink evs = some (true, ⟨0, [], [], []⟩) := by
  unfold Write writeLoop
  simp [initW]

/-- C9: every iteration issues its WriteFile with the count reqU32, the
32-bit truncation of length minus the 32-bit running total; this equals
the remaining unsent suffix whenever length is below 2^32, and for some
lengths of at least 2^32 the requested count differs from the remaining
suffix length. -/
theorem Write_request_arith :
    (∀ (data : Nat → Nat) (len tmo : Nat) (sink : Bool) (e : WriteEvent) (st : WState),
        ∃ tail, actsOf (writeIter data len tmo sink e st)
          = st.acts ++ WriteAct.issueWrite st.tw (reqU32 len st.tw) :: tail)
    ∧ (∀ len tw, len < u32 → tw ≤ len → reqU32 len tw = len - tw)
    ∧ (∃ len tw, u32 ≤ len ∧ tw ≤ len ∧ reqU32 len tw ≠ len - tw) :=
  ⟨req_first_act, req_eq_rem, ⟨u32, 0, le_refl _, Nat.zero_le _, by decide⟩⟩

theorem Write_request_arith_check : reqU32 5 3 = 5 - 3 :=
  Write_request_arith.2.1 5 3 (by norm_num [u32]) (by norm_num)

/-- C10: removing the print callback disables forwarding only: a drain
pass with no sink forwards nothing, while it still consumes the same
bytes, issues the same requests, returns the same count, and fails in the
same way as a pass with a sink installed. -/
theorem ReadOutput_null_sink_drains (s : SessionRes) (env : DrainEnv) (out : DrainOut)
    (hrun : ReadOutput ((SetPrintFunc false s).printFn) env = some out) :
    out.fwd = []
    ∧ ∃ out', ReadOutput true env = some out'
        ∧ out'.total = out.total ∧ out'.consumed = out.consumed
        ∧ out'.reqs = out.reqs ∧ out'.failed = out.failed := by
  have h0 : ReadOutput false env = some out := hrun
  unfold ReadOutput at h0 ⊢
  split at h0
  · rename_i hpk
    simp only [Option.some.injEq] at h0
    subst h0
    exact ⟨rfl, ⟨_, rfl, rfl, rfl, rfl, rfl⟩⟩
  · rename_i avail hpk
    refine ⟨readLoop_no_sink_fwd avail env.reads 0 [] [] [] out h0, ?_⟩
    have hmap := readLoop_sink_core false true avail env.reads 0 [] [] [] []
    rw [h0] at hmap
    cases hl : readLoop true avail env.reads 0 [] [] [] with
    | none =>
      rw [hl] at hmap
      exact absurd hmap (by simp)
    | some out2 =>
      rw [hl] at hmap
      have hmap2 : drainCore out = drainCore out2 := by
        simpa using hmap
      unfold drainCore at hmap2
      simp only [Prod.mk.injEq] at hmap2
      exact ⟨out2, rfl, hmap2.1.symm, hmap2.2.2.1.symm, hmap2.2.1.symm, hmap2.2.2.2.symm⟩

theorem ReadOutput_null_sink_drains_check :
    (DrainOut.mk 2 [] [2] [7, 8] false).fwd = []
    ∧ ∃ out', ReadOutput true ⟨some 2, [ReadRes.chunk [7, 8]]⟩ = some out'
        ∧ out'.total = (DrainOut.mk 2 [] [2] [7, 8] false).total
        ∧ out'.consumed = (DrainOut.mk 2 [] [2] [7, 8] false).consumed
        ∧ out'.reqs = (DrainOut.mk 2 [] [2] [7, 8] false).reqs
        ∧ out'.failed = (DrainOut.mk 2 [] [2] [7, 8] false).failed :=
  ReadOutput_null_sink_drains fullSession ⟨some 2, [ReadRes.chunk [7, 8]]⟩
    (DrainOut.mk 2 [] [2] [7, 8] false) (by decide)

end Ffmpipe
